import Mathlib

/-!
Shallow embedding of `src/enex2notion/cli_upload.py` (the concurrent,
idempotent, fault-isolated upload pipeline of enex2notion).

Modelling conventions:
* The ledger backing file is modelled at line granularity: `none` is a
  missing file, `some lines` is a file whose content is the concatenation
  of `l ++ "\n"` for each `l` in `lines`.  `DoneFile.add` writes
  `f"{note_hash}\n"`, i.e. appends one line; Python's file iteration plus
  `line.strip()` is modelled by `pyStrip` on each stored line (valid
  for tokens that contain no newline, which the round-trip theorems
  assume explicitly).
* Exceptions are modelled by explicit outcome/result types; an exception
  that the code lets escape becomes a `failed...` constructor rather than
  a Lean-level error.
* External collaborators (`parse_note`, `upload_note` of
  `enex_uploader`, the container resolvers) are parameters of the
  pipeline environment.
* The thread/semaphore machinery of `upload_notebook` is modelled twice:
  as a sequential fold (`processNotes`, one possible interleaving, used
  for ledger/outcome claims) and as a nondeterministic transition system
  (`DStep`, used for the bounded-concurrency claims).
-/

/-- An Evernote note as used by `cli_upload.py`: the completion token
(`note_hash`), a diagnostic title and a mutable list of tag strings. -/
structure EvernoteNote where
  note_hash : String
  title : String
  tags : List String
deriving DecidableEq

/-- State of a `DoneFile` ledger: the in-memory set `done_hashes` and
the backing file, `none` when the file does not exist. -/
structure DoneFile where
  done_hashes : Finset String
  fileLines : Option (List String)
deriving DecidableEq

/-- Python's `str.strip()` (no argument): remove leading and trailing
whitespace characters. -/
def pyStrip (s : String) : String :=
  ⟨((s.data.dropWhile Char.isWhitespace).reverse.dropWhile Char.isWhitespace).reverse⟩

namespace DoneFile

/-- Reading the backing file as `DoneFile.__init__` does:
`{line.strip() for line in f}`; `FileNotFoundError` yields the empty
set. -/
def readFile (file : Option (List String)) : Finset String :=
  match file with
  | none => ∅
  | some lines => (lines.map pyStrip).toFinset

/-- `DoneFile.__init__(path)`: load the in-memory set from the backing
file (empty when missing); the file itself is untouched. -/
def init (file : Option (List String)) : DoneFile :=
  ⟨readFile file, file⟩

/-- `DoneFile.add(note_hash)`: insert into the in-memory set and append
`f"{note_hash}\n"` (one line) to the file, creating it if missing. -/
def add (st : DoneFile) (note_hash : String) : DoneFile :=
  ⟨insert note_hash st.done_hashes, some (st.fileLines.getD [] ++ [note_hash])⟩

/-- `DoneFile.__contains__`. -/
def mem (st : DoneFile) (note_hash : String) : Prop :=
  note_hash ∈ st.done_hashes

instance : Membership String DoneFile := ⟨fun st h => st.mem h⟩

instance (h : String) (st : DoneFile) : Decidable (h ∈ st) :=
  inferInstanceAs (Decidable (h ∈ st.done_hashes))

end DoneFile

/-- A token that survives the write/read round trip of the ledger
verbatim: stripping is the identity on it and it spans one line. -/
def cleanToken (t : String) : Prop :=
  pyStrip t = t ∧ ('\n' ∉ t.data ∧ '\r' ∉ t.data)

instance (t : String) : Decidable (cleanToken t) := by
  unfold cleanToken; infer_instance

/-- Outcome of one call to the external `upload_note` collaborator:
success, `NoteUploadFailException`, or any other exception. -/
inductive UploadOutcome (ε : Type) where
  | success
  | uploadFail
  | otherError (e : ε)
deriving DecidableEq

/-- How `_upload_note` terminates, with the number of collaborator
calls made: normal return, `NoteUploadFailException` re-raised on the
last attempt, or another exception propagating uncaught. -/
inductive UploadResult (ε : Type) where
  | ok (attempts : Nat)
  | failedUpload (attempts : Nat)
  | failedOther (e : ε) (attempts : Nat)
deriving DecidableEq

/-- Log events emitted by the pipeline, one constructor per source
logging statement, tagged with the data interpolated there. -/
inductive LogEvent where
  | skipAlreadyUploaded (title : String)
  | parsingNote (title : String)
  | parseFailed (title : String)
  | parseErrorDetail
  | skipNoBlocks (title : String)
  | uploadingNote (idx total : Nat) (title : String)
  | uploadRetryWarning (title : String)
deriving DecidableEq

/-- Severity of each log event, as in the source
(`logger.debug` / `logger.info` / `logger.warning` / `logger.error`). -/
inductive LogLevel where
  | debug | info | warning | error
deriving DecidableEq

def LogEvent.level : LogEvent → LogLevel
  | .skipAlreadyUploaded _ => .debug
  | .parsingNote _ => .debug
  | .parseFailed _ => .error
  | .parseErrorDetail => .debug
  | .skipNoBlocks _ => .debug
  | .uploadingNote _ _ _ => .info
  | .uploadRetryWarning _ => .warning

/-- Invocations of the external collaborators, recorded as a trace. -/
inductive Call where
  | parseCall (n : EvernoteNote)
  | uploadCall (n : EvernoteNote) (attempt : Nat)
deriving DecidableEq

def Call.isUploadCall : Call → Bool
  | .uploadCall _ _ => true
  | _ => false

/-- Body of `_upload_note`'s `for attempt in range(5)` loop, recursing
over the remaining attempt indices.  `made` counts collaborator calls
already made.  An empty index list means the `for` loop fell through,
i.e. the function returns normally. -/
def uploadGo (u : Nat → UploadOutcome ε) (note : EvernoteNote) (made : Nat) :
    List Nat → List LogEvent × List Call × UploadResult ε
  | [] => ([], [], .ok made)
  | attempt :: rest =>
    match u attempt with
    | .success => ([], [.uploadCall note attempt], .ok (made + 1))
    | .otherError e => ([], [.uploadCall note attempt], .failedOther e (made + 1))
    | .uploadFail =>
      if attempt = 4 then ([], [.uploadCall note attempt], .failedUpload (made + 1))
      else
        let r := uploadGo u note (made + 1) rest
        (.uploadRetryWarning note.title :: r.1, .uploadCall note attempt :: r.2.1, r.2.2)

/-- `_upload_note(notebook_root, note, note_blocks)`: retry loop over
attempts `0..4`, parametrised by the per-attempt collaborator outcome
`u`. -/
def _upload_note (u : Nat → UploadOutcome ε) (note : EvernoteNote) :
    List LogEvent × List Call × UploadResult ε :=
  uploadGo u note 0 (List.range 5)

/-- Destination container handles, as produced by the two resolver
collaborators (`get_notebook_database` / `get_notebook_page`). -/
inductive Container (ρ : Type) where
  | database (root : ρ) (title : String)
  | page (root : ρ) (title : String)
deriving DecidableEq

/-- The slice of `Rules` that `cli_upload.py` reads: the optional tag
forced onto every note. -/
structure Rules where
  tag : Option String
deriving DecidableEq

/-- Python truthiness of `self.rules.tag` (an `Optional[str]`): `None`
and the empty string are falsy. -/
def Rules.tagTruthy (r : Rules) : Bool :=
  match r.tag with
  | none => false
  | some t => t ≠ ""

/-- Lines 84-85 of the source: `if self.rules.tag and self.rules.tag
not in note.tags: note.tags.append(self.rules.tag)`, acting on the
worker's copy of the note. -/
def applyTagRule (rules : Rules) (note : EvernoteNote) : EvernoteNote :=
  match rules.tag with
  | some t =>
    if t ≠ "" ∧ t ∉ note.tags then { note with tags := note.tags ++ [t] }
    else note
  | none => note

/-- Environment of one `EnexUploader`: the configured rules, the
behaviour of the two external collaborators, and the cached
`notebook_notes_count` used for progress logging.  `parse` gives the
result of `parse_note(note, rules)` (`Except.error` = raised
exception); `upload note attempt` gives the outcome of the
`attempt`-th `upload_note` collaborator call for `note`. -/
structure Env (ε β : Type) where
  rules : Rules
  parse : EvernoteNote → Except ε (List β)
  upload : EvernoteNote → Nat → UploadOutcome ε
  notebook_notes_count : Nat

/-- Terminal state of one note's pipeline run.  `dryRunParsed` is the
fall-through of `upload_note` when `notebook_root is None`. -/
inductive NoteOutcome (ε : Type) where
  | skippedAlreadyDone
  | skippedNoBlocks
  | dryRunParsed
  | done (attempts : Nat)
  | failedUpload (attempts : Nat)
  | failedOther (e : ε) (attempts : Nat)
deriving DecidableEq

/-- Everything observable about one `upload_note` run: the ledger
afterwards, the log, the collaborator-call trace and the terminal
outcome. -/
structure NoteRun (ε : Type) where
  ledger : DoneFile
  log : List LogEvent
  calls : List Call
  outcome : NoteOutcome ε
deriving DecidableEq

/-- `EnexUploader._parse_note(note)`: call the collaborator, catch any
exception, log it (error + debug detail) and return `[]`. -/
def EnexUploader.parseNote (env : Env ε β) (note : EvernoteNote) :
    List LogEvent × List β :=
  match env.parse note with
  | .ok blocks => ([], blocks)
  | .error _ => ([.parseFailed note.title, .parseErrorDetail], [])

/-- `EnexUploader.upload_note(notebook_root, note, note_idx)`:
dedup check → tag rule → parse → (if a container is present)
upload-with-retry → ledger commit. -/
def EnexUploader.upload_note (env : Env ε β) (notebook_root : Option (Container ρ))
    (ledger : DoneFile) (note : EvernoteNote) (note_idx : Nat) : NoteRun ε :=
  if note.note_hash ∈ ledger then
    ⟨ledger, [.skipAlreadyUploaded note.title], [], .skippedAlreadyDone⟩
  else
    let note := applyTagRule env.rules note
    let parsed := EnexUploader.parseNote env note
    let log := .parsingNote note.title :: parsed.1
    let calls := [Call.parseCall note]
    if parsed.2.isEmpty then
      ⟨ledger, log ++ [.skipNoBlocks note.title], calls, .skippedNoBlocks⟩
    else
      match notebook_root with
      | none => ⟨ledger, log, calls, .dryRunParsed⟩
      | some _ =>
        let log := log ++ [.uploadingNote note_idx env.notebook_notes_count note.title]
        let up := _upload_note (env.upload note) note
        match up.2.2 with
        | .ok n => ⟨ledger.add note.note_hash, log ++ up.1, calls ++ up.2.1, .done n⟩
        | .failedUpload n => ⟨ledger, log ++ up.1, calls ++ up.2.1, .failedUpload n⟩
        | .failedOther e n => ⟨ledger, log ++ up.1, calls ++ up.2.1, .failedOther e n⟩

/-- `copy.deepcopy` on a note value. -/
def deepcopy (n : EvernoteNote) : EvernoteNote := n

/-- Whether a pipeline outcome makes `upload_note` raise, i.e. an
exception escapes the worker body of `upload_note_with_release`. -/
def NoteOutcome.escapes : NoteOutcome ε → Bool
  | .failedUpload _ => true
  | .failedOther _ _ => true
  | _ => false

/-- Result of `EnexUploader.upload_note_with_release`: the run of
`upload_note` on a deep copy of the note, whether an exception escaped
the worker (uncaught by the `try`/`finally`), and whether the
semaphore slot was released (the `finally` always runs). -/
structure WorkerRun (ε : Type) where
  run : NoteRun ε
  escaped : Bool
  released : Bool
deriving DecidableEq

/-- `EnexUploader.upload_note_with_release(notebook_root, note,
note_idx)`. -/
def EnexUploader.upload_note_with_release (env : Env ε β)
    (notebook_root : Option (Container ρ)) (ledger : DoneFile)
    (note : EvernoteNote) (note_idx : Nat) : WorkerRun ε :=
  let r := EnexUploader.upload_note env notebook_root ledger (deepcopy note) note_idx
  ⟨r, r.outcome.escapes, true⟩

/-- `EnexUploader._get_notebook_root(notebook_title)`: `None` import
root stays `None` (dry run); otherwise mode `"DB"` resolves a database
container and any other mode a page container. -/
def EnexUploader.getNotebookRoot (import_root : Option ρ) (mode : String)
    (notebook_title : String) : Option (Container ρ) :=
  match import_root with
  | none => none
  | some r =>
    if mode = "DB" then some (.database r notebook_title)
    else some (.page r notebook_title)

/-- The note loop of `EnexUploader.upload_notebook`, sequentialised:
notes are dispatched in source order with 1-based indices and the
ledger is threaded through; returns the final ledger and each note's
terminal outcome.  (This is one interleaving of the thread pool; the
concurrency itself is modelled by `DStep` below.) -/
def processNotes (env : Env ε β) (notebook_root : Option (Container ρ))
    (ledger : DoneFile) (note_idx : Nat) :
    List EvernoteNote → DoneFile × List (NoteOutcome ε)
  | [] => (ledger, [])
  | note :: rest =>
    let w := EnexUploader.upload_note_with_release env notebook_root ledger note note_idx
    let r := processNotes env notebook_root w.run.ledger (note_idx + 1) rest
    (r.1, w.run.outcome :: r.2)

/-- Concurrency state of `upload_notebook`'s thread dispatch:
`pending` notes not yet submitted, `sem` available permits of
`BoundedSemaphore(parallelism)`, `running` spawned worker threads
whose `finally: self.semaphore.release()` has not run yet, `drained`
permits acquired by the final await loop, and `finished` once the
closing `release(parallelism)` has executed. -/
structure DispatchState where
  pending : Nat
  sem : Nat
  running : Nat
  drained : Nat
  finished : Bool
deriving DecidableEq

/-- Interleaving steps of `upload_notebook` with parallelism `P`:
the main thread acquires a permit and spawns a worker per remaining
note; a worker terminates (by any exit path, success or exception) and
its `finally` releases its permit; after all notes are submitted the
main thread acquires all `P` permits one by one, then releases them in
one call and returns. -/
inductive DStep (P : Nat) : DispatchState → DispatchState → Prop
  | submit (pending sem running drained : Nat)
      (hp : 0 < pending) (hs : 0 < sem) :
      DStep P ⟨pending, sem, running, drained, false⟩
        ⟨pending - 1, sem - 1, running + 1, drained, false⟩
  | workerDone (pending sem running drained : Nat) (hr : 0 < running) :
      DStep P ⟨pending, sem, running, drained, false⟩
        ⟨pending, sem + 1, running - 1, drained, false⟩
  | drainAcquire (sem running drained : Nat)
      (hd : drained < P) (hs : 0 < sem) :
      DStep P ⟨0, sem, running, drained, false⟩
        ⟨0, sem - 1, running, drained + 1, false⟩
  | drainRelease (sem running : Nat) :
      DStep P ⟨0, sem, running, P, false⟩
        ⟨0, sem + P, running, 0, true⟩

/-- Initial state of a batch of `n` notes: no workers yet, all `P`
permits available. -/
def dispatchInit (n P : Nat) : DispatchState := ⟨n, P, 0, 0, false⟩

/-- States reachable during a batch of `n` notes at parallelism `P`. -/
def DReach (n P : Nat) (s : DispatchState) : Prop :=
  Relation.ReflTransGen (DStep P) (dispatchInit n P) s

/-- Inductive invariant of the dispatcher: before the final release,
permits are conserved (`sem + running + drained = P`); after it, no
worker is running, nothing is pending and all permits are back. -/
def DInv (P : Nat) (s : DispatchState) : Prop :=
  (s.finished = false → s.sem + s.running + s.drained = P) ∧
    (s.finished = true → s.running = 0 ∧ s.pending = 0 ∧ s.sem = P ∧ s.drained = 0)

/-- `add`-ing every token of a list in order, as successive pipeline
commits do. -/
def addAll (st : DoneFile) (ts : List String) : DoneFile :=
  ts.foldl DoneFile.add st

/-- A ledger whose in-memory set matches what re-reading its backing
file would produce. -/
def Synced (st : DoneFile) : Prop :=
  DoneFile.readFile st.fileLines = st.done_hashes

lemma readFile_getD (file : Option (List String)) :
    DoneFile.readFile (some (file.getD [])) = DoneFile.readFile file := by
  cases file <;> rfl

lemma readFile_append_clean (file : Option (List String)) (t : String)
    (ht : pyStrip t = t) :
    DoneFile.readFile (some (file.getD [] ++ [t])) =
      insert t (DoneFile.readFile file) := by
  rw [← readFile_getD file]
  unfold DoneFile.readFile
  ext x
  simp [ht, or_comm]

lemma synced_init (file : Option (List String)) : Synced (DoneFile.init file) := rfl

lemma synced_add (st : DoneFile) (t : String) (hst : Synced st) (ht : pyStrip t = t) :
    Synced (st.add t) := by
  unfold Synced DoneFile.add at *
  simpa [readFile_append_clean st.fileLines t ht] using congrArg (insert t) hst

lemma addAll_done_hashes (ts : List String) (st : DoneFile) :
    (addAll st ts).done_hashes = st.done_hashes ∪ ts.toFinset := by
  induction ts generalizing st with
  | nil => simp [addAll]
  | cons t ts ih =>
    show (addAll (st.add t) ts).done_hashes = _
    rw [ih]
    ext x
    simp [DoneFile.add, or_assoc]

lemma addAll_fileLines (ts : List String) (st : DoneFile) (hne : ts ≠ []) :
    (addAll st ts).fileLines = some (st.fileLines.getD [] ++ ts) := by
  induction ts generalizing st with
  | nil => exact absurd rfl hne
  | cons t ts ih =>
    show (addAll (st.add t) ts).fileLines = _
    cases ts with
    | nil => simp [addAll, DoneFile.add]
    | cons u us =>
      rw [ih (st.add t) (by simp)]
      simp [DoneFile.add]

lemma map_trim_of_clean (ts : List String) (h : ∀ t ∈ ts, cleanToken t) :
    ts.map pyStrip = ts := by
  induction ts with
  | nil => rfl
  | cons t ts ih =>
    simp only [List.map_cons, (h t (by simp)).1, List.cons.injEq, true_and]
    exact ih fun u hu => h u (by simp [hu])

/-- C3 — Ledger round trip.  A missing backing file constructs the
empty ledger; `add t` inserts `t` into the in-memory set and appends
the line `t` to the file; after adding a non-empty list of
whitespace-free, newline-free tokens to a fresh ledger, the in-memory
set is exactly the token set, the file holds the tokens in order, and
re-constructing a ledger from that file (each line stripped, read as a
set) recovers exactly the token set, duplicates collapsed. -/
theorem ledger_roundtrip (ts : List String) (hts : ∀ t ∈ ts, cleanToken t)
    (hne : ts ≠ []) :
    DoneFile.init none = ⟨∅, none⟩ ∧
    (∀ (st : DoneFile) (t : String),
      t ∈ st.add t ∧
      (st.add t).done_hashes = insert t st.done_hashes ∧
      (st.add t).fileLines = some (st.fileLines.getD [] ++ [t])) ∧
    (addAll (DoneFile.init none) ts).done_hashes = ts.toFinset ∧
    (addAll (DoneFile.init none) ts).fileLines = some ts ∧
    (DoneFile.init (some ts)).done_hashes = ts.toFinset := by
  refine ⟨rfl, fun st t => ⟨Finset.mem_insert_self t _, rfl, rfl⟩, ?_, ?_, ?_⟩
  · rw [addAll_done_hashes]
    simp [DoneFile.init, DoneFile.readFile]
  · rw [addAll_fileLines ts _ hne]
    rfl
  · show (List.map pyStrip ts).toFinset = ts.toFinset
    rw [map_trim_of_clean ts hts]

/-- Witness for `ledger_roundtrip` at the concrete token list
`["a1", "b2", "a1"]` (clean tokens, one duplicate). -/
theorem ledger_roundtrip_witness :
    (∀ t ∈ ["a1", "b2", "a1"], cleanToken t) ∧ ["a1", "b2", "a1"] ≠ [] ∧
    (addAll (DoneFile.init none) ["a1", "b2", "a1"]).done_hashes =
      (["a1", "b2", "a1"] : List String).toFinset ∧
    (addAll (DoneFile.init none) ["a1", "b2", "a1"]).fileLines =
      some ["a1", "b2", "a1"] := by
  have h1 : ∀ t ∈ ["a1", "b2", "a1"], cleanToken t := by decide
  have h2 : (["a1", "b2", "a1"] : List String) ≠ [] := by decide
  have h := ledger_roundtrip ["a1", "b2", "a1"] h1 h2
  exact ⟨h1, h2, h.2.2.1, h.2.2.2.1⟩

/-- The dedup branch of `upload_note`: a token already recorded makes
the pipeline return at once with the ledger untouched and no
collaborator call. -/
lemma upload_note_already_done (env : Env ε β) (notebook_root : Option (Container ρ))
    (ledger : DoneFile) (note : EvernoteNote) (note_idx : Nat)
    (hmem : note.note_hash ∈ ledger) :
    EnexUploader.upload_note env notebook_root ledger note note_idx =
      ⟨ledger, [.skipAlreadyUploaded note.title], [], .skippedAlreadyDone⟩ := by
  unfold EnexUploader.upload_note
  rw [if_pos hmem]

/-- C2 — Dedup check.  If the note's token is already in the ledger,
`upload_note` returns immediately: the result is the unchanged ledger
(set and file), a single debug log line, an empty collaborator-call
trace (neither `parse_note` nor the upload collaborator run), and the
already-done outcome; in particular the tag-rule mutation is never
reached. -/
theorem dedup_skips_note (env : Env ε β) (notebook_root : Option (Container ρ))
    (ledger : DoneFile) (note : EvernoteNote) (note_idx : Nat)
    (hmem : note.note_hash ∈ ledger) :
    EnexUploader.upload_note env notebook_root ledger note note_idx =
      ⟨ledger, [.skipAlreadyUploaded note.title], [], .skippedAlreadyDone⟩ :=
  upload_note_already_done env notebook_root ledger note note_idx hmem

namespace Ex

/-- A concrete note used by the witnesses. -/
def note1 : EvernoteNote := ⟨"a1b2", "Note One", ["x"]⟩

/-- A second concrete note. -/
def note2 : EvernoteNote := ⟨"c3d4", "Note Two", []⟩

/-- A concrete destination container. -/
def root1 : Container Unit := .page () "nb"

/-- Environment whose collaborators always succeed: parsing yields one
block, uploading succeeds on every attempt. -/
def envOk : Env Unit Unit :=
  ⟨⟨some "forced"⟩, fun _ => .ok [()], fun _ _ => .success, 2⟩

/-- Environment whose upload collaborator raises
`NoteUploadFailException` on every attempt. -/
def envAllFail : Env Unit Unit :=
  ⟨⟨none⟩, fun _ => .ok [()], fun _ _ => .uploadFail, 2⟩

/-- Environment whose upload collaborator fails twice with the
upload-specific error and then succeeds. -/
def envFailTwice : Env Unit Unit :=
  ⟨⟨none⟩, fun _ => .ok [()], fun _ i => if i < 2 then .uploadFail else .success, 2⟩

/-- Environment whose parse collaborator raises on every note. -/
def envParseError : Env Unit Unit :=
  ⟨⟨none⟩, fun _ => .error (), fun _ _ => .success, 2⟩

/-- A ledger pre-seeded with `note1`'s token. -/
def ledgerDone : DoneFile := DoneFile.init (some ["a1b2"])

end Ex

/-- Witness for `dedup_skips_note`: a pre-seeded ledger containing
`note1`'s token makes the pipeline return the skip outcome with no
collaborator calls. -/
theorem dedup_skips_note_witness :
    ("a1b2" ∈ Ex.ledgerDone) ∧
    EnexUploader.upload_note Ex.envOk (some Ex.root1) Ex.ledgerDone Ex.note1 1 =
      ⟨Ex.ledgerDone, [.skipAlreadyUploaded "Note One"], [], .skippedAlreadyDone⟩ :=
  ⟨by decide, dedup_skips_note Ex.envOk (some Ex.root1) Ex.ledgerDone Ex.note1 1 (by decide)⟩

lemma range_five : List.range 5 = [0, 1, 2, 3, 4] := rfl

/-- `_upload_note` when the collaborator fails `k < 5` times and then
succeeds: `k` retry warnings, `k + 1` collaborator calls (attempts
`0..k`), and a normal return after `k + 1` attempts. -/
lemma upload_retry_ok (u : Nat → UploadOutcome ε) (note : EvernoteNote) (k : Nat)
    (hk : k < 5) (hfail : ∀ i, i < k → u i = .uploadFail) (hsucc : u k = .success) :
    _upload_note u note =
      (List.replicate k (.uploadRetryWarning note.title),
       (List.range (k + 1)).map (Call.uploadCall note), .ok (k + 1)) := by
  interval_cases k <;>
    simp_all [_upload_note, range_five, uploadGo,
      fun i (h : i < 5) => hfail i, List.range_succ]

/-- `_upload_note` when the collaborator raises
`NoteUploadFailException` on all 5 attempts: 4 retry warnings, 5
collaborator calls, and the exception re-raised after the 5th. -/
lemma upload_retry_exhausted (u : Nat → UploadOutcome ε) (note : EvernoteNote)
    (hfail : ∀ i, i < 5 → u i = .uploadFail) :
    _upload_note u note =
      (List.replicate 4 (.uploadRetryWarning note.title),
       (List.range 5).map (Call.uploadCall note), .failedUpload 5) := by
  simp_all [_upload_note, range_five, uploadGo, List.range_succ]

/-- `_upload_note` when the first attempt raises an exception other
than `NoteUploadFailException`: no warning, a single collaborator
call, and the exception propagating out of the loop immediately. -/
lemma upload_other_error_first (u : Nat → UploadOutcome ε) (note : EvernoteNote)
    (e : ε) (h : u 0 = .otherError e) :
    _upload_note u note = ([], [.uploadCall note 0], .failedOther e 1) := by
  simp [_upload_note, range_five, uploadGo, h]

lemma applyTagRule_note_hash (rules : Rules) (note : EvernoteNote) :
    (applyTagRule rules note).note_hash = note.note_hash := by
  cases h : rules.tag with
  | none => simp [applyTagRule, h]
  | some t => simp only [applyTagRule, h]; split <;> rfl

lemma applyTagRule_title (rules : Rules) (note : EvernoteNote) :
    (applyTagRule rules note).title = note.title := by
  cases h : rules.tag with
  | none => simp [applyTagRule, h]
  | some t => simp only [applyTagRule, h]; split <;> rfl

/-- Unfolding of `upload_note` on the path that reaches the upload
call: token not in the ledger, parse succeeded with non-empty blocks,
container present. -/
lemma upload_note_uploads (env : Env ε β) (c : Container ρ) (ledger : DoneFile)
    (note : EvernoteNote) (idx : Nat) (bs : List β)
    (hmem : note.note_hash ∉ ledger.done_hashes)
    (hbs : env.parse (applyTagRule env.rules note) = .ok bs) (hne : bs ≠ []) :
    EnexUploader.upload_note env (some c) ledger note idx =
      (let tn := applyTagRule env.rules note
       let up := _upload_note (env.upload tn) tn
       let log := [LogEvent.parsingNote tn.title,
                   LogEvent.uploadingNote idx env.notebook_notes_count tn.title] ++ up.1
       let calls := Call.parseCall tn :: up.2.1
       match up.2.2 with
       | .ok n => ⟨ledger.add note.note_hash, log, calls, .done n⟩
       | .failedUpload n => ⟨ledger, log, calls, .failedUpload n⟩
       | .failedOther e n => ⟨ledger, log, calls, .failedOther e n⟩) := by
  have hmem' : ¬(note.note_hash ∈ ledger) := hmem
  have hbe : bs.isEmpty = false := by
    cases bs with
    | nil => exact absurd rfl hne
    | cons b bs => rfl
  unfold EnexUploader.upload_note
  rw [if_neg hmem']
  simp only [EnexUploader.parseNote, hbs, hbe, Bool.false_eq_true, if_false]
  cases hu : (_upload_note (env.upload (applyTagRule env.rules note))
      (applyTagRule env.rules note)).2.2 <;> simp [hu, applyTagRule_note_hash]

lemma isUploadCall_comp_uploadCall (n : EvernoteNote) :
    (Call.isUploadCall ∘ Call.uploadCall n) = fun _ => true := rfl

/-- C1 — Retry bound.  On the upload path (fresh token, parseable
non-empty note, container present): if the upload collaborator fails
with the upload-specific error on exactly `k < 5` attempts and then
succeeds, the pipeline makes exactly `k + 1` upload-collaborator
calls, logs exactly `k` retry warnings, ends the note `done` and adds
its token to the ledger; if the collaborator fails on all 5 attempts,
exactly 5 calls are made, the token is never added (ledger unchanged),
and the run ends in the fatal `failedUpload` outcome whose exception
escapes the worker. -/
theorem retry_bound (env : Env ε β) (c : Container ρ) (ledger : DoneFile)
    (note : EvernoteNote) (idx : Nat) (bs : List β)
    (hmem : note.note_hash ∉ ledger.done_hashes)
    (hbs : env.parse (applyTagRule env.rules note) = .ok bs) (hne : bs ≠ []) :
    (∀ k, k < 5 →
      (∀ i, i < k → env.upload (applyTagRule env.rules note) i = .uploadFail) →
      env.upload (applyTagRule env.rules note) k = .success →
      (EnexUploader.upload_note env (some c) ledger note idx).outcome = .done (k + 1) ∧
      ((EnexUploader.upload_note env (some c) ledger note idx).calls.filter
        Call.isUploadCall).length = k + 1 ∧
      (EnexUploader.upload_note env (some c) ledger note idx).ledger =
        ledger.add note.note_hash ∧
      (EnexUploader.upload_note env (some c) ledger note idx).log.filter
          (fun ev => ev.level == .warning) =
        List.replicate k (.uploadRetryWarning (applyTagRule env.rules note).title)) ∧
    ((∀ i, i < 5 → env.upload (applyTagRule env.rules note) i = .uploadFail) →
      (EnexUploader.upload_note env (some c) ledger note idx).outcome = .failedUpload 5 ∧
      ((EnexUploader.upload_note env (some c) ledger note idx).calls.filter
        Call.isUploadCall).length = 5 ∧
      (EnexUploader.upload_note env (some c) ledger note idx).ledger = ledger ∧
      note.note_hash ∉ (EnexUploader.upload_note env (some c) ledger note idx).ledger.done_hashes ∧
      (EnexUploader.upload_note env (some c) ledger note idx).outcome.escapes = true) := by
  rw [upload_note_uploads env c ledger note idx bs hmem hbs hne]
  constructor
  · intro k hk hfail hsucc
    simp [upload_retry_ok _ _ k hk hfail hsucc, List.filter_cons, Call.isUploadCall,
      List.filter_map, isUploadCall_comp_uploadCall, List.filter_append,
      List.filter_replicate, LogEvent.level]
  · intro hfail
    simp [upload_retry_exhausted _ _ hfail, List.filter_cons, Call.isUploadCall,
      List.filter_map, isUploadCall_comp_uploadCall, List.filter_append,
      List.filter_replicate, LogEvent.level, hmem, NoteOutcome.escapes]

/-- Witness for `retry_bound`: an upload collaborator that fails twice
then succeeds gives outcome `done 3` with 3 upload calls, and the
token committed to a fresh ledger. -/
theorem retry_bound_witness :
    (EnexUploader.upload_note Ex.envFailTwice (some Ex.root1)
      (DoneFile.init none) Ex.note2 1).outcome = .done 3 ∧
    ((EnexUploader.upload_note Ex.envFailTwice (some Ex.root1)
      (DoneFile.init none) Ex.note2 1).calls.filter Call.isUploadCall).length = 3 ∧
    (EnexUploader.upload_note Ex.envFailTwice (some Ex.root1)
      (DoneFile.init none) Ex.note2 1).ledger = (DoneFile.init none).add "c3d4" := by
  have h := (retry_bound Ex.envFailTwice Ex.root1 (DoneFile.init none) Ex.note2 1 [()]
    (by decide) rfl (by decide)).1 2 (by decide)
    (fun i hi => by interval_cases i <;> rfl) rfl
  exact ⟨h.1, h.2.1, h.2.2.1⟩

/-- C8 — Only the upload-specific error retries.  If the first upload
attempt raises an exception other than `NoteUploadFailException`, the
retry loop of `_upload_note` propagates it immediately: exactly one
collaborator call, no retry, no warning log. -/
theorem other_error_no_retry (u : Nat → UploadOutcome ε) (note : EvernoteNote)
    (e : ε) (h : u 0 = .otherError e) :
    _upload_note u note = ([], [.uploadCall note 0], .failedOther e 1) :=
  upload_other_error_first u note e h

/-- Witness for `other_error_no_retry` at a collaborator raising a
non-upload-specific error on the first attempt. -/
theorem other_error_no_retry_witness :
    _upload_note (fun _ => UploadOutcome.otherError 7) Ex.note1 =
      ([], [.uploadCall Ex.note1 0], .failedOther 7 1) :=
  other_error_no_retry (fun _ => UploadOutcome.otherError 7) Ex.note1 7 rfl

/-- `upload_note` when the translation collaborator raises: the error
is caught inside `_parse_note`, an error-level line plus the debug
detail are logged, the note ends in the skipped-no-blocks state, no
upload is attempted and the ledger is untouched. -/
lemma upload_note_parse_error (env : Env ε β) (notebook_root : Option (Container ρ))
    (ledger : DoneFile) (note : EvernoteNote) (idx : Nat) (e : ε)
    (hmem : note.note_hash ∉ ledger.done_hashes)
    (hparse : env.parse (applyTagRule env.rules note) = .error e) :
    EnexUploader.upload_note env notebook_root ledger note idx =
      ⟨ledger,
       [.parsingNote (applyTagRule env.rules note).title,
        .parseFailed (applyTagRule env.rules note).title,
        .parseErrorDetail,
        .skipNoBlocks (applyTagRule env.rules note).title],
       [.parseCall (applyTagRule env.rules note)], .skippedNoBlocks⟩ := by
  have hmem' : ¬(note.note_hash ∈ ledger) := hmem
  unfold EnexUploader.upload_note
  rw [if_neg hmem']
  simp [EnexUploader.parseNote, hparse]

/-- The ledger result and outcome of `upload_note` do not depend on
the progress index `note_idx` (it only feeds the info log line). -/
lemma upload_note_idx_irrelevant (env : Env ε β) (notebook_root : Option (Container ρ))
    (ledger : DoneFile) (note : EvernoteNote) (i j : Nat) :
    (EnexUploader.upload_note env notebook_root ledger note i).ledger =
      (EnexUploader.upload_note env notebook_root ledger note j).ledger ∧
    (EnexUploader.upload_note env notebook_root ledger note i).outcome =
      (EnexUploader.upload_note env notebook_root ledger note j).outcome := by
  unfold EnexUploader.upload_note
  by_cases hmem : note.note_hash ∈ ledger
  · rw [if_pos hmem, if_pos hmem]
    exact ⟨rfl, rfl⟩
  · rw [if_neg hmem, if_neg hmem]
    by_cases hE : (EnexUploader.parseNote env (applyTagRule env.rules note)).2.isEmpty
    · simp [hE]
    · simp only [hE, Bool.false_eq_true, if_false]
      cases notebook_root with
      | none => exact ⟨rfl, rfl⟩
      | some c =>
        cases hu : (_upload_note (env.upload (applyTagRule env.rules note))
            (applyTagRule env.rules note)).2.2 <;> simp [hu]

lemma processNotes_idx_irrelevant (env : Env ε β) (notebook_root : Option (Container ρ))
    (ns : List EvernoteNote) :
    ∀ (ledger : DoneFile) (i j : Nat),
      processNotes env notebook_root ledger i ns = processNotes env notebook_root ledger j ns := by
  induction ns with
  | nil => intro ledger i j; rfl
  | cons n ns ih =>
    intro ledger i j
    obtain ⟨hl, ho⟩ := upload_note_idx_irrelevant env notebook_root ledger n i j
    simp only [processNotes, EnexUploader.upload_note_with_release, deepcopy]
    rw [hl, ho, ih _ (i + 1) (j + 1)]

/-- C4 — Translate-error isolation.  When the translation collaborator
raises, the pipeline catches the error, logs it at error level with
the note's title, ends the note as skipped with no upload call and an
unchanged ledger, and lets no exception escape; moreover, in a batch,
prepending such a failing note changes neither the final ledger nor
any sibling note's outcome. -/
theorem translate_error_isolated (env : Env ε β) (notebook_root : Option (Container ρ))
    (ledger : DoneFile) (note : EvernoteNote) (idx : Nat) (e : ε)
    (hmem : note.note_hash ∉ ledger.done_hashes)
    (hparse : env.parse (applyTagRule env.rules note) = .error e) :
    EnexUploader.upload_note env notebook_root ledger note idx =
      ⟨ledger,
       [.parsingNote (applyTagRule env.rules note).title,
        .parseFailed (applyTagRule env.rules note).title,
        .parseErrorDetail,
        .skipNoBlocks (applyTagRule env.rules note).title],
       [.parseCall (applyTagRule env.rules note)], .skippedNoBlocks⟩ ∧
    LogEvent.level (.parseFailed (applyTagRule env.rules note).title) = .error ∧
    (applyTagRule env.rules note).title = note.title ∧
    (EnexUploader.upload_note env notebook_root ledger note idx).outcome.escapes = false ∧
    (∀ (ns : List EvernoteNote) (i : Nat),
      processNotes env notebook_root ledger i (note :: ns) =
        ((processNotes env notebook_root ledger i ns).1,
         .skippedNoBlocks :: (processNotes env notebook_root ledger i ns).2)) := by
  have hrun := upload_note_parse_error env notebook_root ledger note idx e hmem hparse
  refine ⟨hrun, rfl, applyTagRule_title env.rules note, by rw [hrun]; rfl, ?_⟩
  intro ns i
  have hrun' := upload_note_parse_error env notebook_root ledger note i e hmem hparse
  simp only [processNotes, EnexUploader.upload_note_with_release, deepcopy, hrun']
  rw [processNotes_idx_irrelevant env notebook_root ns ledger (i + 1) i]

/-- Witness for `translate_error_isolated`: a parse collaborator that
always raises makes the note skipped and leaves a sibling batch
untouched. -/
theorem translate_error_isolated_witness :
    (EnexUploader.upload_note Ex.envParseError (some Ex.root1)
        (DoneFile.init none) Ex.note1 1).outcome = .skippedNoBlocks ∧
    processNotes Ex.envParseError (some Ex.root1) (DoneFile.init none) 1 [Ex.note1, Ex.note2] =
      ((processNotes Ex.envParseError (some Ex.root1) (DoneFile.init none) 1 [Ex.note2]).1,
       .skippedNoBlocks ::
         (processNotes Ex.envParseError (some Ex.root1) (DoneFile.init none) 1 [Ex.note2]).2) := by
  have h := translate_error_isolated Ex.envParseError (some Ex.root1)
    (DoneFile.init none) Ex.note1 1 () (by decide) rfl
  exact ⟨by rw [h.1], h.2.2.2.2 [Ex.note2] 1⟩

/-- `upload_note` when translation succeeds but yields no blocks:
debug skip, no upload, unchanged ledger. -/
lemma upload_note_no_blocks (env : Env ε β) (notebook_root : Option (Container ρ))
    (ledger : DoneFile) (note : EvernoteNote) (idx : Nat)
    (hmem : note.note_hash ∉ ledger.done_hashes)
    (hparse : env.parse (applyTagRule env.rules note) = .ok []) :
    EnexUploader.upload_note env notebook_root ledger note idx =
      ⟨ledger,
       [.parsingNote (applyTagRule env.rules note).title,
        .skipNoBlocks (applyTagRule env.rules note).title],
       [.parseCall (applyTagRule env.rules note)], .skippedNoBlocks⟩ := by
  have hmem' : ¬(note.note_hash ∈ ledger) := hmem
  unfold EnexUploader.upload_note
  rw [if_neg hmem']
  simp [EnexUploader.parseNote, hparse]

/-- The ledger after `upload_note` is either untouched, or the run
ended `done` behind a present container on a fresh token and the
ledger gained exactly that token. -/
lemma upload_note_ledger_cases (env : Env ε β) (notebook_root : Option (Container ρ))
    (ledger : DoneFile) (note : EvernoteNote) (idx : Nat) :
    (EnexUploader.upload_note env notebook_root ledger note idx).ledger = ledger ∨
    ((∃ n, (EnexUploader.upload_note env notebook_root ledger note idx).outcome = .done n) ∧
      notebook_root ≠ none ∧ note.note_hash ∉ ledger.done_hashes ∧
      (EnexUploader.upload_note env notebook_root ledger note idx).ledger =
        ledger.add note.note_hash) := by
  unfold EnexUploader.upload_note
  by_cases hmem : note.note_hash ∈ ledger
  · rw [if_pos hmem]; exact Or.inl rfl
  · rw [if_neg hmem]
    by_cases hE : (EnexUploader.parseNote env (applyTagRule env.rules note)).2.isEmpty
    · simp [hE]
    · simp only [hE, Bool.false_eq_true, if_false]
      cases notebook_root with
      | none => exact Or.inl rfl
      | some c =>
        cases hu : (_upload_note (env.upload (applyTagRule env.rules note))
            (applyTagRule env.rules note)).2.2 with
        | ok n =>
          exact Or.inr ⟨⟨n, by simp [hu]⟩, by simp, hmem,
            by simp [hu, applyTagRule_note_hash]⟩
        | failedUpload n => simp [hu]
        | failedOther e n => simp [hu]

/-- C10 — Ledger commit invariant.  A note's token enters the ledger
only on the `done` path: a successful upload behind a present
(non-`None`) container of a token not yet recorded; dry runs
(container absent), translation errors and empty-translation notes
always leave the ledger exactly as it was. -/
theorem ledger_commit_only_on_upload (env : Env ε β)
    (notebook_root : Option (Container ρ)) (ledger : DoneFile)
    (note : EvernoteNote) (idx : Nat) :
    ((EnexUploader.upload_note env notebook_root ledger note idx).ledger = ledger ∨
      ((∃ n, (EnexUploader.upload_note env notebook_root ledger note idx).outcome = .done n) ∧
        notebook_root ≠ none ∧ note.note_hash ∉ ledger.done_hashes ∧
        (EnexUploader.upload_note env notebook_root ledger note idx).ledger =
          ledger.add note.note_hash)) ∧
    (notebook_root = none →
      (EnexUploader.upload_note env notebook_root ledger note idx).ledger = ledger) ∧
    (∀ e, env.parse (applyTagRule env.rules note) = .error e →
      (EnexUploader.upload_note env notebook_root ledger note idx).ledger = ledger) ∧
    (env.parse (applyTagRule env.rules note) = .ok [] →
      (EnexUploader.upload_note env notebook_root ledger note idx).ledger = ledger) := by
  refine ⟨upload_note_ledger_cases env notebook_root ledger note idx, ?_, ?_, ?_⟩
  · intro hroot
    rcases upload_note_ledger_cases env notebook_root ledger note idx with h | h
    · exact h
    · exact absurd hroot h.2.1
  · intro e hparse
    by_cases hmem : note.note_hash ∈ ledger
    · rw [upload_note_already_done env notebook_root ledger note idx hmem]
    · rw [upload_note_parse_error env notebook_root ledger note idx e hmem hparse]
  · intro hparse
    by_cases hmem : note.note_hash ∈ ledger
    · rw [upload_note_already_done env notebook_root ledger note idx hmem]
    · rw [upload_note_no_blocks env notebook_root ledger note idx hmem hparse]

/-- Witness for `ledger_commit_only_on_upload`: a dry run (no
container) leaves a fresh ledger untouched even though parsing
succeeds with blocks. -/
theorem ledger_commit_only_on_upload_witness :
    (EnexUploader.upload_note Ex.envOk (none : Option (Container Unit))
      (DoneFile.init none) Ex.note1 1).ledger = DoneFile.init none :=
  (ledger_commit_only_on_upload Ex.envOk none (DoneFile.init none) Ex.note1 1).2.1 rfl

/-- When the token is fresh, the first collaborator call of the
pipeline is `parse_note` on the tag-rule-adjusted private copy of the
note. -/
lemma upload_note_first_call (env : Env ε β) (notebook_root : Option (Container ρ))
    (ledger : DoneFile) (note : EvernoteNote) (idx : Nat)
    (hmem : note.note_hash ∉ ledger.done_hashes) :
    (EnexUploader.upload_note env notebook_root ledger note idx).calls.head? =
      some (.parseCall (applyTagRule env.rules note)) := by
  have hmem' : ¬(note.note_hash ∈ ledger) := hmem
  unfold EnexUploader.upload_note
  rw [if_neg hmem']
  by_cases hE : (EnexUploader.parseNote env (applyTagRule env.rules note)).2.isEmpty
  · simp [hE]
  · simp only [hE, Bool.false_eq_true, if_false]
    cases notebook_root with
    | none => rfl
    | some c =>
      cases hu : (_upload_note (env.upload (applyTagRule env.rules note))
          (applyTagRule env.rules note)).2.2 <;> simp [hu]

/-- C7 — Tag injection.  With a configured (truthy) forced tag `T` and
a note whose tags hold `T` at most once, the rule application leaves
the worker's copy with `T` exactly once: appended at the end when it
was absent, the note left fully unchanged when it was present; inside
the pipeline the collaborators then receive exactly that adjusted
private copy. -/
theorem tag_injection (rules : Rules) (note : EvernoteNote) (T : String)
    (hT : rules.tag = some T) (hT' : T ≠ "") (hcount : note.tags.count T ≤ 1) :
    (applyTagRule rules note).tags.count T = 1 ∧
    (T ∉ note.tags → (applyTagRule rules note).tags = note.tags ++ [T]) ∧
    (T ∈ note.tags → applyTagRule rules note = note) ∧
    (∀ (env : Env ε β) (notebook_root : Option (Container ρ)) (ledger : DoneFile)
      (idx : Nat), env.rules = rules → note.note_hash ∉ ledger.done_hashes →
      (EnexUploader.upload_note env notebook_root ledger note idx).calls.head? =
        some (.parseCall (applyTagRule rules note))) := by
  refine ⟨?_, ?_, ?_, ?_⟩
  · by_cases hmemT : T ∈ note.tags
    · have h1 : 0 < note.tags.count T := List.count_pos_iff.mpr hmemT
      have : applyTagRule rules note = note := by
        simp [applyTagRule, hT, hmemT]
      rw [this]
      omega
    · have h0 : note.tags.count T = 0 := List.count_eq_zero.mpr hmemT
      have : applyTagRule rules note = { note with tags := note.tags ++ [T] } := by
        simp [applyTagRule, hT, hmemT, hT']
      rw [this]
      simp [List.count_append, h0]
  · intro hmemT
    simp [applyTagRule, hT, hmemT, hT']
  · intro hmemT
    simp [applyTagRule, hT, hmemT]
  · intro env notebook_root ledger idx henv hmem
    rw [← henv]
    exact upload_note_first_call env notebook_root ledger note idx hmem

/-- Witness for `tag_injection`: forced tag `"forced"` on a note that
does not carry it is appended exactly once, and the parse collaborator
receives the tagged copy. -/
theorem tag_injection_witness :
    (applyTagRule ⟨some "forced"⟩ Ex.note1).tags.count "forced" = 1 ∧
    (applyTagRule ⟨some "forced"⟩ Ex.note1).tags = ["x", "forced"] ∧
    (EnexUploader.upload_note Ex.envOk (some Ex.root1) (DoneFile.init none)
        Ex.note1 1).calls.head? =
      some (.parseCall (applyTagRule ⟨some "forced"⟩ Ex.note1)) := by
  have h := @tag_injection Unit Unit Unit ⟨some "forced"⟩ Ex.note1 "forced" rfl
    (by decide) (by decide)
  refine ⟨h.1, ?_, h.2.2.2 Ex.envOk (some Ex.root1) (DoneFile.init none) 1 rfl (by decide)⟩
  have := h.2.1 (by decide)
  simpa [Ex.note1] using this

/-- On the upload path with a collaborator that succeeds on the first
attempt, the pipeline commits the token and ends `done 1`. -/
lemma upload_note_first_try_ledger (env : Env ε β) (c : Container ρ)
    (ledger : DoneFile) (note : EvernoteNote) (idx : Nat) (bs : List β)
    (hmem : note.note_hash ∉ ledger.done_hashes)
    (hbs : env.parse (applyTagRule env.rules note) = .ok bs) (hne : bs ≠ [])
    (hsucc : env.upload (applyTagRule env.rules note) 0 = .success) :
    (EnexUploader.upload_note env (some c) ledger note idx).ledger =
      ledger.add note.note_hash ∧
    (EnexUploader.upload_note env (some c) ledger note idx).outcome = .done 1 := by
  rw [upload_note_uploads env c ledger note idx bs hmem hbs hne]
  simp [upload_retry_ok _ _ 0 (by omega) (fun i hi => absurd hi (by omega)) hsucc]

/-- First run of a batch whose notes all parse to non-empty blocks and
upload successfully: the final in-memory set is the starting set plus
every note's token, and syncedness with the backing file is
preserved. -/
lemma processNotes_all_success (env : Env ε β) (c : Container ρ) :
    ∀ (ns : List EvernoteNote) (ledger : DoneFile) (i : Nat),
    (∀ n ∈ ns, ∃ bs, env.parse (applyTagRule env.rules n) = .ok bs ∧ bs ≠ []) →
    (∀ n ∈ ns, env.upload (applyTagRule env.rules n) 0 = .success) →
    (∀ n ∈ ns, cleanToken n.note_hash) →
    (processNotes env (some c) ledger i ns).1.done_hashes =
      ledger.done_hashes ∪ (ns.map EvernoteNote.note_hash).toFinset ∧
    (Synced ledger → Synced (processNotes env (some c) ledger i ns).1) := by
  intro ns
  induction ns with
  | nil => intro ledger i _ _ _; exact ⟨by simp [processNotes], fun h => h⟩
  | cons n ns ih =>
    intro ledger i hparse hupload hclean
    simp only [processNotes, EnexUploader.upload_note_with_release, deepcopy]
    by_cases hmem : n.note_hash ∈ ledger.done_hashes
    · rw [upload_note_already_done env (some c) ledger n i hmem]
      obtain ⟨hset, hsync⟩ := ih ledger (i + 1)
        (fun m hm => hparse m (by simp [hm]))
        (fun m hm => hupload m (by simp [hm]))
        (fun m hm => hclean m (by simp [hm]))
      refine ⟨?_, hsync⟩
      rw [hset, List.map_cons, List.toFinset_cons, Finset.union_insert,
        Finset.insert_eq_self.mpr (Finset.mem_union_left _ hmem)]
    · obtain ⟨bs, hbs, hne⟩ := hparse n (by simp)
      obtain ⟨hl, _⟩ := upload_note_first_try_ledger env c ledger n i bs hmem hbs hne
        (hupload n (by simp))
      rw [hl]
      obtain ⟨hset, hsync⟩ := ih (ledger.add n.note_hash) (i + 1)
        (fun m hm => hparse m (by simp [hm]))
        (fun m hm => hupload m (by simp [hm]))
        (fun m hm => hclean m (by simp [hm]))
      refine ⟨?_, ?_⟩
      · rw [hset, List.map_cons, List.toFinset_cons, Finset.union_insert]
        show insert n.note_hash ledger.done_hashes ∪ _ = _
        rw [Finset.insert_union]
      · intro hs
        exact hsync (synced_add ledger n.note_hash hs (hclean n (by simp)).1)

/-- A batch whose notes' tokens are all already recorded: every note
is skipped as already done and the ledger does not move. -/
lemma processNotes_all_done (env : Env ε β) (notebook_root : Option (Container ρ)) :
    ∀ (ns : List EvernoteNote) (ledger : DoneFile) (i : Nat),
    (∀ n ∈ ns, n.note_hash ∈ ledger.done_hashes) →
    processNotes env notebook_root ledger i ns =
      (ledger, ns.map fun _ => .skippedAlreadyDone) := by
  intro ns
  induction ns with
  | nil => intro ledger i _; rfl
  | cons n ns ih =>
    intro ledger i hmem
    simp only [processNotes, EnexUploader.upload_note_with_release, deepcopy]
    rw [upload_note_already_done env notebook_root ledger n i (hmem n (by simp))]
    rw [ih ledger (i + 1) (fun m hm => hmem m (by simp [hm]))]
    simp

/-- C6 — Idempotent resume.  Run a batch `N` (clean tokens, all notes
parseable with blocks, uploads succeeding) from a fresh ledger at a
missing backing file, persist, reconstruct a ledger from the persisted
file, then run `N` again: the first run records exactly `N`'s token
set; the reconstructed ledger holds that same set (no duplicates, no
omissions); and the second run skips every note as already done — zero
uploads — leaving the ledger exactly as reconstructed. -/
theorem idempotent_resume (env : Env ε β) (c : Container ρ) (N : List EvernoteNote)
    (hparse : ∀ n ∈ N, ∃ bs, env.parse (applyTagRule env.rules n) = .ok bs ∧ bs ≠ [])
    (hupload : ∀ n ∈ N, env.upload (applyTagRule env.rules n) 0 = .success)
    (hclean : ∀ n ∈ N, cleanToken n.note_hash) :
    (processNotes env (some c) (DoneFile.init none) 1 N).1.done_hashes =
      (N.map EvernoteNote.note_hash).toFinset ∧
    (DoneFile.init
        (processNotes env (some c) (DoneFile.init none) 1 N).1.fileLines).done_hashes =
      (N.map EvernoteNote.note_hash).toFinset ∧
    processNotes env (some c)
        (DoneFile.init (processNotes env (some c) (DoneFile.init none) 1 N).1.fileLines)
        1 N =
      (DoneFile.init (processNotes env (some c) (DoneFile.init none) 1 N).1.fileLines,
       N.map fun _ => .skippedAlreadyDone) := by
  obtain ⟨hset, hsync⟩ :=
    processNotes_all_success env c N (DoneFile.init none) 1 hparse hupload hclean
  have h1 : (processNotes env (some c) (DoneFile.init none) 1 N).1.done_hashes =
      (N.map EvernoteNote.note_hash).toFinset := by
    rw [hset]
    show (∅ : Finset String) ∪ _ = _
    rw [Finset.empty_union]
  have hs : Synced (processNotes env (some c) (DoneFile.init none) 1 N).1 :=
    hsync (synced_init none)
  have h2 : (DoneFile.init
      (processNotes env (some c) (DoneFile.init none) 1 N).1.fileLines).done_hashes =
      (N.map EvernoteNote.note_hash).toFinset := by
    show DoneFile.readFile _ = _
    rw [hs, h1]
  refine ⟨h1, h2, ?_⟩
  apply processNotes_all_done
  intro n hn
  rw [h2]
  exact List.mem_toFinset.mpr (List.mem_map_of_mem EvernoteNote.note_hash hn)

/-- Witness for `idempotent_resume` on the two-note batch
`[note1, note2]` with always-succeeding collaborators. -/
theorem idempotent_resume_witness :
    (processNotes Ex.envOk (some Ex.root1) (DoneFile.init none) 1
        [Ex.note1, Ex.note2]).1.done_hashes =
      (["a1b2", "c3d4"] : List String).toFinset ∧
    processNotes Ex.envOk (some Ex.root1)
        (DoneFile.init (processNotes Ex.envOk (some Ex.root1) (DoneFile.init none) 1
          [Ex.note1, Ex.note2]).1.fileLines) 1 [Ex.note1, Ex.note2] =
      (DoneFile.init (processNotes Ex.envOk (some Ex.root1) (DoneFile.init none) 1
          [Ex.note1, Ex.note2]).1.fileLines,
       [.skippedAlreadyDone, .skippedAlreadyDone]) := by
  have h := idempotent_resume Ex.envOk Ex.root1 [Ex.note1, Ex.note2]
    (fun n hn => ⟨[()], rfl, by simp⟩) (fun n hn => rfl) (by decide)
  exact ⟨h.1, h.2.2⟩

lemma DInv_init (n P : Nat) : DInv P (dispatchInit n P) := by
  refine ⟨fun _ => ?_, fun hfin => by simp [dispatchInit] at hfin⟩
  simp [dispatchInit]

lemma DInv_step (P : Nat) {s s' : DispatchState} (hs : DInv P s) (h : DStep P s s') :
    DInv P s' := by
  obtain ⟨h1, h2⟩ := hs
  cases h with
  | submit pending sem running drained hp hsem =>
    have hc := h1 rfl
    dsimp only at hc
    refine ⟨fun _ => ?_, fun hfin => by simp at hfin⟩
    dsimp only
    omega
  | workerDone pending sem running drained hr =>
    have hc := h1 rfl
    dsimp only at hc
    refine ⟨fun _ => ?_, fun hfin => by simp at hfin⟩
    dsimp only
    omega
  | drainAcquire sem running drained hd hsem =>
    have hc := h1 rfl
    dsimp only at hc
    refine ⟨fun _ => ?_, fun hfin => by simp at hfin⟩
    dsimp only
    omega
  | drainRelease sem running =>
    have hc := h1 rfl
    dsimp only at hc
    refine ⟨fun hfin => by simp at hfin, fun _ => ?_⟩
    dsimp only
    omega

lemma DReach_inv (n P : Nat) (s : DispatchState) (h : DReach n P s) : DInv P s := by
  induction h with
  | refl => exact DInv_init n P
  | tail hsteps hstep ih => exact DInv_step P ih hstep

/-- C9 — Bounded concurrency.  In every state reachable while
dispatching a batch of `n` notes at parallelism `P`, at most `P`
worker threads are running (whatever `n ≥ P` or not); a worker's
permit is released on every exit path (the `finally` of
`upload_note_with_release`, modelled both by the unconditional
`workerDone` release and by `released = true` on every worker run);
and once the drain has completed, no worker is running, nothing is
pending, and all `P` permits are back so the dispatcher is reusable. -/
theorem bounded_concurrency (n P : Nat) (s : DispatchState) (h : DReach n P s) :
    s.running ≤ P ∧
    (s.finished = true →
      s.running = 0 ∧ s.pending = 0 ∧ s.sem = P ∧ s.drained = 0) ∧
    (∀ (env : Env ε β) (notebook_root : Option (Container ρ)) (ledger : DoneFile)
      (note : EvernoteNote) (idx : Nat),
      (EnexUploader.upload_note_with_release env notebook_root ledger note idx).released =
        true) := by
  obtain ⟨h1, h2⟩ := DReach_inv n P s h
  refine ⟨?_, h2, fun env notebook_root ledger note idx => rfl⟩
  cases hfin : s.finished with
  | false => have := h1 hfin; omega
  | true => have := h2 hfin; omega

/-- Witness for `bounded_concurrency`: a complete dispatch of 2 notes
at parallelism 1 — submit, finish, submit, finish, drain, release —
reaches the finished state with the permit restored. -/
theorem bounded_concurrency_witness :
    DReach 2 1 ⟨0, 1, 0, 0, true⟩ ∧
    (0 : Nat) ≤ 1 ∧ (0 : Nat) = 0 ∧ (1 : Nat) = 1 := by
  have s1 : DStep 1 ⟨2, 1, 0, 0, false⟩ ⟨1, 0, 1, 0, false⟩ :=
    DStep.submit 2 1 0 0 (by omega) (by omega)
  have s2 : DStep 1 ⟨1, 0, 1, 0, false⟩ ⟨1, 1, 0, 0, false⟩ :=
    DStep.workerDone 1 0 1 0 (by omega)
  have s3 : DStep 1 ⟨1, 1, 0, 0, false⟩ ⟨0, 0, 1, 0, false⟩ :=
    DStep.submit 1 1 0 0 (by omega) (by omega)
  have s4 : DStep 1 ⟨0, 0, 1, 0, false⟩ ⟨0, 1, 0, 0, false⟩ :=
    DStep.workerDone 0 0 1 0 (by omega)
  have s5 : DStep 1 ⟨0, 1, 0, 0, false⟩ ⟨0, 0, 0, 1, false⟩ :=
    DStep.drainAcquire 1 0 0 (by omega) (by omega)
  have s6 : DStep 1 ⟨0, 0, 0, 1, false⟩ ⟨0, 0 + 1, 0, 0, true⟩ :=
    DStep.drainRelease 0 0
  have hr : DReach 2 1 ⟨0, 1, 0, 0, true⟩ := by
    unfold DReach dispatchInit
    exact Relation.ReflTransGen.tail (Relation.ReflTransGen.tail
      (Relation.ReflTransGen.tail (Relation.ReflTransGen.tail
        (Relation.ReflTransGen.tail (Relation.ReflTransGen.tail
          Relation.ReflTransGen.refl s1) s2) s3) s4) s5) s6
  have h := bounded_concurrency (ε := Unit) (β := Unit) (ρ := Unit) 2 1 _ hr
  exact ⟨hr, h.1, (h.2.1 rfl).1, (h.2.1 rfl).2.2.1⟩

/-- Counterexample to C5 as stated: with an upload collaborator that
fails all 5 attempts (fresh token, parseable note, container present),
the worker body of `upload_note_with_release` does NOT convert the
fatal outcome into a result-channel value — the
`NoteUploadFailException` re-raised by `_upload_note` escapes the
worker uncaught (`escaped = true`), exactly the uncaught-exception
reporting the claim rules out. -/
theorem upload_exhaustion_escapes_worker :
    (EnexUploader.upload_note_with_release Ex.envAllFail (some Ex.root1)
      (DoneFile.init none) Ex.note1 1).run.outcome = .failedUpload 5 ∧
    (EnexUploader.upload_note_with_release Ex.envAllFail (some Ex.root1)
      (DoneFile.init none) Ex.note1 1).escaped = true := by
  decide

/-- C5 (amended) — When a note exhausts all 5 upload attempts, the
upload-specific exception escapes the worker uncaught rather than
through a result channel; nevertheless the `finally` still releases
the worker's slot, the ledger is untouched, and in the dispatcher
model the failing worker's termination is an ordinary `workerDone`
step that frees its permit without disturbing any other state. -/
theorem upload_exhaustion_surfaced (env : Env ε β) (c : Container ρ)
    (ledger : DoneFile) (note : EvernoteNote) (idx : Nat) (bs : List β)
    (hmem : note.note_hash ∉ ledger.done_hashes)
    (hbs : env.parse (applyTagRule env.rules note) = .ok bs) (hne : bs ≠ [])
    (hfail : ∀ i, i < 5 → env.upload (applyTagRule env.rules note) i = .uploadFail) :
    (EnexUploader.upload_note_with_release env (some c) ledger note idx).run.outcome =
      .failedUpload 5 ∧
    (EnexUploader.upload_note_with_release env (some c) ledger note idx).escaped = true ∧
    (EnexUploader.upload_note_with_release env (some c) ledger note idx).released = true ∧
    (EnexUploader.upload_note_with_release env (some c) ledger note idx).run.ledger =
      ledger ∧
    (∀ (P pending sem running drained : Nat), 0 < running →
      DStep P ⟨pending, sem, running, drained, false⟩
        ⟨pending, sem + 1, running - 1, drained, false⟩) := by
  have hu := upload_retry_exhausted (env.upload (applyTagRule env.rules note))
    (applyTagRule env.rules note) hfail
  have ho : (EnexUploader.upload_note env (some c) ledger note idx).outcome =
      .failedUpload 5 := by
    rw [upload_note_uploads env c ledger note idx bs hmem hbs hne]
    simp [hu]
  have hl : (EnexUploader.upload_note env (some c) ledger note idx).ledger = ledger := by
    rw [upload_note_uploads env c ledger note idx bs hmem hbs hne]
    simp [hu]
  refine ⟨ho, ?_, rfl, hl, fun P pending sem running drained hr =>
    DStep.workerDone pending sem running drained hr⟩
  show (EnexUploader.upload_note env (some c) ledger note idx).outcome.escapes = true
  rw [ho]
  rfl

/-- Witness for `upload_exhaustion_surfaced` at the concrete all-fail
environment: the slot is released and the ledger stays empty even
though the exception escaped. -/
theorem upload_exhaustion_surfaced_witness :
    (EnexUploader.upload_note_with_release Ex.envAllFail (some Ex.root1)
      (DoneFile.init none) Ex.note2 1).released = true ∧
    (EnexUploader.upload_note_with_release Ex.envAllFail (some Ex.root1)
      (DoneFile.init none) Ex.note2 1).run.ledger = DoneFile.init none := by
  have h := upload_exhaustion_surfaced Ex.envAllFail Ex.root1 (DoneFile.init none)
    Ex.note2 1 [()] (by decide) rfl (by simp) (fun i hi => rfl)
  exact ⟨h.2.2.1, h.2.2.2.1⟩
